import Mathlib

/-!
Verification of the deltagov versioned-content diff-and-cache engine.

The definitions below are a shallow embedding of the Go source:
* `diff_engine` (src/backend/internal/diff_engine/diff.go): `tokenize`,
  `ComputeWordLevel`, `Compute`, and the `Delta`/`Hunk`/`Change` data model.
* the `BillService` orchestration (src/backend/cmd/api/main.go):
  `ComputeDiff`, `deltaToResponse`, the cached `models.Delta` rows and the
  `DiffResponse` wire shape.

The Go code delegates the edit-script computation to the external
`go-udiff` library (`myers.ComputeEdits` + `udiff.ToUnified`), which is not
part of this repository; those parts are modelled from the specification
(minimal Myers edit script, unified rendering with three context lines) and
are marked `Modelled from the spec:` in their doc comments.
-/

namespace DeltaGov

/-! ## Tokenizer (diff.go, `tokenize`) -/

/-- The separator test of `tokenize`: Go's `r == ' ' || r == '\n' || r == '\t'`. -/
def isSepChar (c : Char) : Bool :=
  c == ' ' || c == '\n' || c == '\t'

/-- Character-level body of `tokenize`: walks the runes keeping the current
non-separator run in `cur`; a separator flushes the run and is emitted as its
own one-character token; a trailing run is flushed at the end. -/
def tokenizeChars : List Char → List Char → List (List Char)
  | [], cur => if cur.isEmpty then [] else [cur]
  | c :: rest, cur =>
    if isSepChar c then
      (if cur.isEmpty then [] else [cur]) ++ [c] :: tokenizeChars rest []
    else
      tokenizeChars rest (cur ++ [c])

/-- `tokenize` from diff.go: splits text into word tokens, preserving each
whitespace character (space, newline, tab) as its own token. -/
def tokenize (text : String) : List String :=
  (tokenizeChars text.data []).map String.mk

/-! ## String helpers mirroring the Go stdlib calls in diff.go -/

/-- Go `strings.Join(words, "\n")`. -/
def joinNl : List String → String
  | [] => ""
  | [x] => x
  | x :: xs => x ++ "\n" ++ joinNl xs

/-- Character-level split on a newline, keeping the final (possibly empty)
segment: Go `strings.Split(s, "\n")`. -/
def splitNlChars : List Char → List Char → List (List Char)
  | [], cur => [cur]
  | c :: rest, cur =>
    if c = '\n' then cur :: splitNlChars rest [] else splitNlChars rest (cur ++ [c])

/-- Go `strings.Split(s, "\n")`: N newlines give N+1 segments. -/
def splitNl (s : String) : List String :=
  (splitNlChars s.data []).map String.mk

/-- Byte-level `strings.HasPrefix`, over runes (the patterns used by the
source are ASCII, so rune and byte prefixes agree). -/
def hasPref : List Char → List Char → Bool
  | _, [] => true
  | [], _ :: _ => false
  | c :: cs, p :: ps => c == p && hasPref cs ps

/-- String wrapper for `hasPref`. -/
def strHasPref (s p : String) : Bool := hasPref s.data p.data

/-! ## The external diff library boundary.

`myers.ComputeEdits` splits its two string arguments into newline-terminated
lines and computes a minimal edit script between the line sequences;
`udiff.ToUnified` renders that script as a unified diff with three context
lines. Neither function's source is part of this repository, so they are
modelled from the specification (§4.3 Edit-Script Computer, §4.4 Hunk
Assembler). -/

/-- Modelled from the spec: the line splitting used by the external
edit-script computer. Lines keep their terminating newline; a final chunk
without a newline is kept; the empty text yields the empty sequence, so that
an empty input degenerates to an insert-only or delete-only script (§4.3). -/
def splitLinesKeepChars : List Char → List Char → List (List Char)
  | [], cur => if cur.isEmpty then [] else [cur]
  | c :: rest, cur =>
    if c = '\n' then (cur ++ [c]) :: splitLinesKeepChars rest []
    else splitLinesKeepChars rest (cur ++ [c])

/-- Modelled from the spec: string wrapper for `splitLinesKeepChars`. -/
def splitLinesKeep (s : String) : List String :=
  (splitLinesKeepChars s.data []).map String.mk

/-- An edit operation of the edit script (EditOperation of the spec):
keep, insert or delete one line. -/
inductive Op where
  | keep (content : String)
  | ins (content : String)
  | del (content : String)
deriving DecidableEq, Repr

/-- The line carried by an operation. -/
def Op.content : Op → String
  | .keep s => s
  | .ins s => s
  | .del s => s

/-- Whether an operation changes the text (insert or delete). -/
def Op.isChange : Op → Bool
  | .keep _ => false
  | _ => true

/-- Whether an operation is an insertion. -/
def Op.isIns : Op → Bool
  | .ins _ => true
  | _ => false

/-- Whether an operation is a deletion. -/
def Op.isDel : Op → Bool
  | .del _ => true
  | _ => false

/-- Whether an operation is a keep. -/
def Op.isKeep : Op → Bool
  | .keep _ => true
  | _ => false

/-- Modelled from the spec: inner recursion of the longest-common-subsequence
length, with the length function for the tail of the first sequence fixed. -/
def lcsStep (f : List String → Nat) (x : String) : List String → Nat
  | [] => 0
  | y :: ys => if x = y then f ys + 1 else max (f (y :: ys)) (lcsStep f x ys)

/-- Modelled from the spec: length of the longest common subsequence of two
line sequences; a minimal insert/delete script keeps exactly this many lines
(§4.3: minimum total length script). -/
def lcsLen : List String → List String → Nat
  | [], _ => 0
  | x :: xs, ys => lcsStep (fun b => lcsLen xs b) x ys

/-- Modelled from the spec: inner recursion of the edit-script computer, with
the functions for the tail of the first sequence fixed. -/
def diffStep (f : List String → Nat) (g : List String → List Op) (x : String) :
    List String → List Op
  | [] => .del x :: g []
  | y :: ys =>
    if x = y then .keep x :: g ys
    else if lcsStep f x ys ≤ f (y :: ys) then .del x :: g (y :: ys)
    else .ins y :: diffStep f g x ys

/-- Modelled from the spec: the edit-script computer (`myers.ComputeEdits`).
Produces a minimal sequence of keep/insert/delete operations transforming the
first line sequence into the second, preferring deletions before insertions
on ties (§4.3). -/
def diffOps : List String → List String → List Op
  | [], ys => ys.map .ins
  | x :: xs, ys => diffStep (fun b => lcsLen xs b) (fun b => diffOps xs b) x ys

/-- Whether a rune list ends in a newline. -/
def lastIsNl (l : List Char) : Bool :=
  match l.getLast? with
  | some c => c == '\n'
  | none => false

/-- Drop a single trailing newline, if present. -/
def chompData (l : List Char) : List Char :=
  if lastIsNl l then l.dropLast else l

/-- The extra line the unified renderer emits after a line that does not end
in a newline. -/
def noNlMarker : String := "\\ No newline at end of file"

/-- Modelled from the spec: how `udiff.ToUnified` renders one operation. The
operation's line (including its terminating newline, if any) is written after
a one-character marker, so splitting the rendered text back on newlines
yields the marker followed by the line without its terminator; a line without
a terminator is followed by the no-newline marker line. -/
def renderOpLines : Op → List String
  | .keep s =>
    String.mk (' ' :: chompData s.data) :: (if lastIsNl s.data then [] else [noNlMarker])
  | .ins s =>
    String.mk ('+' :: chompData s.data) :: (if lastIsNl s.data then [] else [noNlMarker])
  | .del s =>
    String.mk ('-' :: chompData s.data) :: (if lastIsNl s.data then [] else [noNlMarker])

/-- The hunk header line of the unified rendering; the counting code in
diff.go only inspects its first character. -/
def hunkHeaderLine : String := "@@ ... @@"

/-- The last `n` elements of a list. -/
def lastN (n : Nat) (l : List α) : List α := l.drop (l.length - n)

/-- Modelled from the spec: hunk grouping of the unified rendering (§4.4).
Walks the script keeping the keeps seen since the last change in `pending`
and the open hunk in `cur`; change runs separated by at most `2 * ctx` keeps
are merged into one hunk, and each hunk carries at most `ctx` keeps of
leading and trailing context. -/
def groupGo (ctx : Nat) : List Op → List Op → List Op → List (List Op)
  | [], cur, pending => if cur.isEmpty then [] else [cur ++ pending.take ctx]
  | op :: rest, cur, pending =>
    if op.isChange then
      if cur.isEmpty then
        groupGo ctx rest (lastN ctx pending ++ [op]) []
      else if pending.length ≤ 2 * ctx then
        groupGo ctx rest (cur ++ pending ++ [op]) []
      else
        (cur ++ pending.take ctx) :: groupGo ctx rest (lastN ctx pending ++ [op]) []
    else
      groupGo ctx rest cur (pending ++ [op])

/-- Modelled from the spec: hunk grouping entry point. -/
def groupHunks (ctx : Nat) (ops : List Op) : List (List Op) := groupGo ctx ops [] []

/-- Concatenation of a list of lists (used for hunk bodies). -/
def flatAll : List (List α) → List α
  | [] => []
  | l :: ls => l ++ flatAll ls

/-- Modelled from the spec: the lines of `udiff.ToUnified`'s output, as they
appear when the unified string is split back on newlines. A script with no
change operations renders as the empty output; otherwise two header lines are
followed by the hunks, each introduced by a hunk header line. -/
def toUnifiedLines (fromName toName : String) (ops : List Op) : List String :=
  if ops.any Op.isChange then
    ("--- " ++ fromName) :: ("+++ " ++ toName) ::
      flatAll ((groupHunks 3 ops).map (fun h => hunkHeaderLine :: flatAll (h.map renderOpLines)))
  else []

/-! ## Delta data model and the counting loop (diff.go) -/

/-- `Change` from diff.go: a single line change. -/
structure Change where
  type : String
  content : String
  lineA : Nat
  lineB : Nat
deriving DecidableEq, Repr

/-- `Hunk` from diff.go: a contiguous block of changes. -/
structure Hunk where
  startA : Nat
  startB : Nat
  lines : List Change
deriving DecidableEq, Repr

/-- `Delta` from diff.go: the structured diff between two text versions. -/
structure Delta where
  versionA : String
  versionB : String
  hunks : List Hunk
  insertions : Nat
  deletions : Nat
  unchanged : Nat
deriving DecidableEq, Repr

/-- The counting loop shared by `Compute` and `ComputeWordLevel`: walks the
lines of the unified diff, counting insertions (`+` lines that are not the
`+++` header), deletions (`-` lines that are not the `---` header) and
unchanged context (space lines); empty lines are skipped. Returns
(insertions, deletions, unchanged). -/
def countDiffLines : List String → Nat × Nat × Nat
  | [] => (0, 0, 0)
  | l :: ls =>
    let r := countDiffLines ls
    if l.data.isEmpty then r
    else if hasPref l.data ['+'] then
      (if hasPref l.data ['+', '+', '+'] then r else (r.1 + 1, r.2.1, r.2.2))
    else if hasPref l.data ['-'] then
      (if hasPref l.data ['-', '-', '-'] then r else (r.1, r.2.1 + 1, r.2.2))
    else if hasPref l.data [' '] then (r.1, r.2.1, r.2.2 + 1)
    else r

/-- The line sequence `ComputeWordLevel` hands to the edit-script computer
for one text: its word tokens joined with newlines, split back into lines by
the library. -/
def wlLines (t : String) : List String :=
  splitLinesKeep (joinNl (tokenize t))

/-- `ComputeWordLevel` from diff.go: tokenizes both texts into words, joins
the tokens with newlines, diffs the joined strings, and counts the plus,
minus and space lines of the unified output. The hunk list is left empty. -/
def computeWordLevel (textA textB : String) : Delta :=
  let c := countDiffLines (toUnifiedLines "a" "b" (diffOps (wlLines textA) (wlLines textB)))
  { versionA := "", versionB := "", hunks := [],
    insertions := c.1, deletions := c.2.1, unchanged := c.2.2 }

/-- `Compute` from diff.go: line-level diff of the raw texts; if the unified
output yields no counts at all, all lines are reported as unchanged. -/
def compute (textA textB versionA versionB : String) : Delta :=
  let c := countDiffLines
    (toUnifiedLines "version_a" "version_b" (diffOps (splitLinesKeep textA) (splitLinesKeep textB)))
  let u := if c.1 = 0 ∧ c.2.1 = 0 ∧ c.2.2 = 0 then
    max (splitNl textA).length (splitNl textB).length else c.2.2
  { versionA := versionA, versionB := versionB, hunks := [],
    insertions := c.1, deletions := c.2.1, unchanged := u }

/-! ## Service layer (src/backend/cmd/api/main.go, `BillService`) -/

/-- `models.Version` (the fields `ComputeDiff` reads): primary key, version
code and raw text. -/
structure Version where
  id : Nat
  versionCode : String
  textContent : String
deriving DecidableEq, Repr

/-- `models.Delta` (the fields `ComputeDiff` writes): the cached row keyed by
the ordered pair of version ids, carrying only the two counts. -/
structure StoredDelta where
  versionAID : Nat
  versionBID : Nat
  insertions : Nat
  deletions : Nat
deriving DecidableEq, Repr

/-- The relevant database state: the versions table and the deltas table. -/
structure DBState where
  versions : List Version
  deltas : List StoredDelta
deriving DecidableEq, Repr

/-- `DiffLine` from main.go. -/
structure DiffLine where
  lineNumber : Nat
  type : String
  text : String
deriving DecidableEq, Repr

/-- `DiffSegment` from main.go. -/
structure DiffSegment where
  type : String
  text : String
deriving DecidableEq, Repr

/-- `DiffResponse` from main.go: the caller-visible result of `ComputeDiff`. -/
structure DiffResponse where
  fromVersion : String
  toVersion : String
  insertions : Nat
  deletions : Nat
  lines : List DiffLine
  segments : List DiffSegment
deriving DecidableEq, Repr

/-- `db.First(&v, id)`: the first version with the given primary key. -/
def findVersion (db : DBState) (id : Nat) : Option Version :=
  db.versions.find? (fun v => v.id == id)

/-- The cache lookup of `ComputeDiff`:
`db.Where("version_a_id = ? AND version_b_id = ?", from, to).First(...)`. -/
def findDelta (db : DBState) (a b : Nat) : Option StoredDelta :=
  db.deltas.find? (fun d => d.versionAID == a && d.versionBID == b)

/-- Go `len` on a string: its UTF-8 byte length, over the rune list. -/
def utf8LenChars : List Char → Nat
  | [] => 0
  | c :: cs => c.utf8Size + utf8LenChars cs

/-- Go `len` on a string. -/
def utf8Len (s : String) : Nat := utf8LenChars s.data

/-- `maxDiffSize` from `ComputeDiff`: the hardcoded 100KB threshold. -/
def maxDiffSize : Nat := 100 * 1024

/-- The type-name translation of `ComputeDiff`'s response loop: `insert` to
`insertion`, `delete` to `deletion`, everything else to `unchanged`. -/
def goChangeType (t : String) : String :=
  if t = "insert" then "insertion" else if t = "delete" then "deletion" else "unchanged"

/-- The response-shaping loop of `ComputeDiff` on the freshly computed path:
walks the delta's hunks, appending one `DiffLine` (with a running line
number starting at 1) and one `DiffSegment` per change. -/
def responseFromDelta (fromCode toCode : String) (delta : Delta) : DiffResponse :=
  let changes := flatAll (delta.hunks.map Hunk.lines)
  { fromVersion := fromCode, toVersion := toCode,
    insertions := delta.insertions, deletions := delta.deletions,
    lines := changes.enum.map
      (fun p => { lineNumber := p.1 + 1, type := goChangeType p.2.type, text := p.2.content }),
    segments := changes.map (fun c => { type := goChangeType c.type, text := c.content }) }

/-- `deltaToResponse` from main.go: converts a stored `models.Delta` row to a
`DiffResponse` with empty line and segment lists. -/
def deltaToResponse (delta : StoredDelta) (fromCode toCode : String) : DiffResponse :=
  { fromVersion := fromCode, toVersion := toCode,
    insertions := delta.insertions, deletions := delta.deletions,
    lines := [], segments := [] }

/-- The fixed sample response `ComputeDiff` returns for texts over 100KB,
embedded verbatim from main.go. -/
def mockLargeResponse (fromCode toCode : String) : DiffResponse :=
  { fromVersion := fromCode, toVersion := toCode,
    insertions := 2500, deletions := 1200,
    lines := [
      { lineNumber := 1, type := "unchanged", text := "SECTION 1. SHORT TITLE." },
      { lineNumber := 2, type := "unchanged",
        text := "This Act may be cited as the \"One Big Beautiful Bill Act\"." },
      { lineNumber := 3, type := "unchanged", text := "" },
      { lineNumber := 4, type := "unchanged", text := "SECTION 2. APPROPRIATIONS." },
      { lineNumber := 5, type := "deletion",
        text := "(a) There is appropriated $500,000,000,000 for federal programs." },
      { lineNumber := 6, type := "insertion",
        text := "(a) There is appropriated $750,000,000,000 for federal programs." },
      { lineNumber := 7, type := "unchanged", text := "" },
      { lineNumber := 8, type := "deletion",
        text := "(b) Funds shall be distributed over a period of 5 years." },
      { lineNumber := 9, type := "insertion",
        text := "(b) Funds shall be distributed over a period of 10 years." },
      { lineNumber := 10, type := "unchanged", text := "" },
      { lineNumber := 11, type := "insertion",
        text := "(c) Priority shall be given to infrastructure projects." },
      { lineNumber := 12, type := "insertion",
        text := "(d) Annual reporting requirements established." },
      { lineNumber := 13, type := "unchanged", text := "" },
      { lineNumber := 14, type := "unchanged", text := "SECTION 3. OVERSIGHT." },
      { lineNumber := 15, type := "unchanged",
        text := "The Government Accountability Office shall conduct quarterly audits." },
      { lineNumber := 16, type := "unchanged", text := "" },
      { lineNumber := 17, type := "unchanged",
        text := "[Note: Full diff computation disabled for large bills (>100KB). This is sample data.]" }],
    segments := [
      { type := "unchanged", text := "SECTION 1. SHORT TITLE.\n" },
      { type := "deletion", text := "$500,000,000,000" },
      { type := "insertion", text := "$750,000,000,000" },
      { type := "unchanged", text := " for federal programs." }] }

/-- `BillService.ComputeDiff` from main.go. `putOk` models whether the
(unchecked) `db.Create` of the cached row succeeds; the final `Bool` of the
result is instrumentation recording whether the real edit-script computation
(`ComputeWordLevel`) was invoked. Control flow, faithful to the source:
resolve both versions; return the cached row's counts on a cache hit; return
the fixed sample response when either text exceeds 100KB; otherwise compute
the word-level delta, append the row to the deltas table (ignoring failure),
and shape the response from the computed delta. -/
def computeDiff (db : DBState) (putOk : Bool) (fromVersionID toVersionID : Nat) :
    Except String (DiffResponse × DBState × Bool) :=
  match findVersion db fromVersionID with
  | none => .error "from version not found"
  | some fromVersion =>
    match findVersion db toVersionID with
    | none => .error "to version not found"
    | some toVersion =>
      match findDelta db fromVersionID toVersionID with
      | some existingDelta =>
        .ok (deltaToResponse existingDelta fromVersion.versionCode toVersion.versionCode, db, false)
      | none =>
        if utf8Len fromVersion.textContent > maxDiffSize ∨
            utf8Len toVersion.textContent > maxDiffSize then
          .ok (mockLargeResponse fromVersion.versionCode toVersion.versionCode, db, false)
        else
          let delta := computeWordLevel fromVersion.textContent toVersion.textContent
          let storedDelta : StoredDelta :=
            { versionAID := fromVersionID, versionBID := toVersionID,
              insertions := delta.insertions, deletions := delta.deletions }
          let db2 := if putOk then { db with deltas := db.deltas ++ [storedDelta] } else db
          .ok (responseFromDelta fromVersion.versionCode toVersion.versionCode delta, db2, true)

deriving instance DecidableEq for Except

/-- The response component of a `ComputeDiff` result. -/
def respOf (e : Except String (DiffResponse × DBState × Bool)) : Option DiffResponse :=
  match e with
  | .ok (r, _, _) => some r
  | .error _ => none

/-- The database state component of a `ComputeDiff` result. -/
def stateOf (e : Except String (DiffResponse × DBState × Bool)) : Option DBState :=
  match e with
  | .ok (_, db, _) => some db
  | .error _ => none

/-- The did-really-compute instrumentation flag of a `ComputeDiff` result. -/
def flagOf (e : Except String (DiffResponse × DBState × Bool)) : Option Bool :=
  match e with
  | .ok (_, _, c) => some c
  | .error _ => none

/-! ## Counting infrastructure used to state the amended claims -/

/-- Componentwise sum of (insertions, deletions, unchanged) triples. -/
def add3 (x y : Nat × Nat × Nat) : Nat × Nat × Nat :=
  (x.1 + y.1, x.2.1 + y.2.1, x.2.2 + y.2.2)

/-- The contribution of one rendered operation to the counting loop of
diff.go: a keep is counted as unchanged; an insert or delete is counted
unless its rendered line collides with the loop's header tests. -/
def opCount : Op → Nat × Nat × Nat
  | .keep _ => (0, 0, 1)
  | .ins s => if hasPref (chompData s.data) ['+', '+'] then (0, 0, 0) else (1, 0, 0)
  | .del s => if hasPref (chompData s.data) ['-', '-'] then (0, 0, 0) else (0, 1, 0)

/-- Total contribution of a script to the counting loop. -/
def sumOpCounts : List Op → Nat × Nat × Nat
  | [] => (0, 0, 0)
  | op :: ops => add3 (opCount op) (sumOpCounts ops)

/-- An insert operation that the counting loop actually counts: its rendered
line does not start with three plus signs. -/
def Op.insCounted (op : Op) : Bool :=
  op.isIns && !hasPref (chompData op.content.data) ['+', '+']

/-- A delete operation that the counting loop actually counts: its rendered
line does not start with three minus signs. -/
def Op.delCounted (op : Op) : Bool :=
  op.isDel && !hasPref (chompData op.content.data) ['-', '-']

/-- Whether a rune list is exactly one whitespace character token. -/
def isWsTokChars (l : List Char) : Bool :=
  l == [' '] || l == ['\n'] || l == ['\t']

/-- Whether a token is exactly one whitespace character. -/
def isWsTok (s : String) : Bool := isWsTokChars s.data

/-! ## Concrete database states used by witnesses and counterexamples -/

/-- A two-version store with texts `a` and `b` and an empty delta cache. -/
def exDB : DBState := ⟨[⟨1, "IH", "a"⟩, ⟨2, "EH", "b"⟩], []⟩

/-- The response `ComputeDiff` produces for versions 1 and 2 of `exDB`. -/
def exResp1 : DiffResponse := ⟨"IH", "EH", 1, 1, [], []⟩

/-- `exDB` after `ComputeDiff` has cached the (1,2) comparison. -/
def exDb1 : DBState := ⟨exDB.versions, [⟨1, 2, 1, 1⟩]⟩

/-- A 110000-byte text, exceeding the 100KB limit. -/
def bigText : String := String.mk (List.replicate 110000 'a')

/-- A store whose first version is oversized. -/
def bigDB : DBState := ⟨[⟨1, "IH", bigText⟩, ⟨2, "EH", "b"⟩], []⟩

/-! ## Unfolding lemmas for the edit-script computer -/

theorem lcsLen_nil_right (a : List String) : lcsLen a [] = 0 := by
  cases a <;> rfl

theorem lcsLen_cons_cons (x y : String) (xs ys : List String) :
    lcsLen (x :: xs) (y :: ys) =
      if x = y then lcsLen xs ys + 1
      else max (lcsLen xs (y :: ys)) (lcsLen (x :: xs) ys) := rfl

theorem diffOps_nil_left (ys : List String) : diffOps [] ys = ys.map Op.ins := rfl

theorem diffOps_cons_nil (x : String) (xs : List String) :
    diffOps (x :: xs) [] = Op.del x :: diffOps xs [] := rfl

theorem diffOps_cons_cons (x y : String) (xs ys : List String) :
    diffOps (x :: xs) (y :: ys) =
      if x = y then Op.keep x :: diffOps xs ys
      else if lcsLen (x :: xs) ys ≤ lcsLen xs (y :: ys) then
        Op.del x :: diffOps xs (y :: ys)
      else Op.ins y :: diffOps (x :: xs) ys := rfl

/-! ## Counting lemmas for the edit script -/

@[simp] theorem isIns_keep (s : String) : Op.isIns (Op.keep s) = false := rfl

@[simp] theorem isIns_ins (s : String) : Op.isIns (Op.ins s) = true := rfl

@[simp] theorem isIns_del (s : String) : Op.isIns (Op.del s) = false := rfl

@[simp] theorem isDel_keep (s : String) : Op.isDel (Op.keep s) = false := rfl

@[simp] theorem isDel_ins (s : String) : Op.isDel (Op.ins s) = false := rfl

@[simp] theorem isDel_del (s : String) : Op.isDel (Op.del s) = true := rfl

@[simp] theorem isKeep_keep (s : String) : Op.isKeep (Op.keep s) = true := rfl

@[simp] theorem isKeep_ins (s : String) : Op.isKeep (Op.ins s) = false := rfl

@[simp] theorem isKeep_del (s : String) : Op.isKeep (Op.del s) = false := rfl

@[simp] theorem isChange_keep (s : String) : Op.isChange (Op.keep s) = false := rfl

@[simp] theorem isChange_ins (s : String) : Op.isChange (Op.ins s) = true := rfl

@[simp] theorem isChange_del (s : String) : Op.isChange (Op.del s) = true := rfl

@[simp] theorem content_keep (s : String) : Op.content (Op.keep s) = s := rfl

@[simp] theorem content_ins (s : String) : Op.content (Op.ins s) = s := rfl

@[simp] theorem content_del (s : String) : Op.content (Op.del s) = s := rfl

theorem lcsLen_comm (a b : List String) : lcsLen a b = lcsLen b a := by
  induction a generalizing b with
  | nil => simp [lcsLen, lcsLen_nil_right]
  | cons x xs ih =>
    induction b with
    | nil => rw [lcsLen_nil_right]; rfl
    | cons y ys ihb =>
      rw [lcsLen_cons_cons, lcsLen_cons_cons]
      by_cases hxy : x = y
      · rw [if_pos hxy, if_pos hxy.symm, ih ys]
      · rw [if_neg hxy, if_neg (fun h => hxy h.symm), ih (y :: ys), ihb, Nat.max_comm]

theorem keep_count (a b : List String) : (diffOps a b).countP Op.isKeep = lcsLen a b := by
  induction a generalizing b with
  | nil =>
    rw [diffOps_nil_left]
    simp [List.countP_map, lcsLen, Function.comp_def, List.countP_eq_zero]
  | cons x xs ih =>
    induction b with
    | nil =>
      rw [diffOps_cons_nil, lcsLen_nil_right]
      have h := ih []
      rw [lcsLen_nil_right] at h
      simp [List.countP_cons, h]
    | cons y ys ihb =>
      rw [diffOps_cons_cons, lcsLen_cons_cons]
      by_cases hxy : x = y
      · rw [if_pos hxy, if_pos hxy]
        simp [List.countP_cons, ih ys]
      · rw [if_neg hxy, if_neg hxy]
        by_cases hle : lcsLen (x :: xs) ys ≤ lcsLen xs (y :: ys)
        · rw [if_pos hle, Nat.max_eq_left hle]
          simp [List.countP_cons, ih (y :: ys)]
        · rw [if_neg hle,
            Nat.max_eq_right (Nat.le_of_lt (Nat.lt_of_not_le hle))]
          simp [List.countP_cons, ihb]

theorem ins_count (a b : List String) :
    (diffOps a b).countP Op.isIns + lcsLen a b = b.length := by
  induction a generalizing b with
  | nil =>
    rw [diffOps_nil_left]
    simp [List.countP_map, lcsLen, Function.comp_def, List.countP_eq_length]
  | cons x xs ih =>
    induction b with
    | nil =>
      rw [diffOps_cons_nil, lcsLen_nil_right]
      have h := ih []
      rw [lcsLen_nil_right] at h
      simpa [List.countP_cons] using h
    | cons y ys ihb =>
      rw [diffOps_cons_cons, lcsLen_cons_cons]
      by_cases hxy : x = y
      · rw [if_pos hxy, if_pos hxy]
        have h := ih ys
        simp [List.countP_cons, List.length_cons] at h ⊢
        omega
      · rw [if_neg hxy, if_neg hxy]
        by_cases hle : lcsLen (x :: xs) ys ≤ lcsLen xs (y :: ys)
        · rw [if_pos hle, Nat.max_eq_left hle]
          have h := ih (y :: ys)
          simp [List.countP_cons, List.length_cons] at h ⊢
          omega
        · rw [if_neg hle,
            Nat.max_eq_right (Nat.le_of_lt (Nat.lt_of_not_le hle))]
          simp [List.countP_cons, List.length_cons] at ihb ⊢
          omega

theorem del_count (a b : List String) :
    (diffOps a b).countP Op.isDel + lcsLen a b = a.length := by
  induction a generalizing b with
  | nil =>
    rw [diffOps_nil_left]
    simp [List.countP_map, lcsLen, Function.comp_def, List.countP_eq_zero]
  | cons x xs ih =>
    induction b with
    | nil =>
      rw [diffOps_cons_nil, lcsLen_nil_right]
      have h := ih []
      rw [lcsLen_nil_right] at h
      simp [List.countP_cons, List.length_cons] at h ⊢
      omega
    | cons y ys ihb =>
      rw [diffOps_cons_cons, lcsLen_cons_cons]
      by_cases hxy : x = y
      · rw [if_pos hxy, if_pos hxy]
        have h := ih ys
        simp [List.countP_cons, List.length_cons] at h ⊢
        omega
      · rw [if_neg hxy, if_neg hxy]
        by_cases hle : lcsLen (x :: xs) ys ≤ lcsLen xs (y :: ys)
        · rw [if_pos hle, Nat.max_eq_left hle]
          have h := ih (y :: ys)
          simp [List.countP_cons, List.length_cons] at h ⊢
          omega
        · rw [if_neg hle,
            Nat.max_eq_right (Nat.le_of_lt (Nat.lt_of_not_le hle))]
          simp [List.countP_cons, List.length_cons] at ihb ⊢
          omega

theorem ins_content_mem (a b : List String) :
    ∀ op ∈ diffOps a b, op.isIns = true → op.content ∈ b := by
  induction a generalizing b with
  | nil =>
    rw [diffOps_nil_left]
    intro op hop _
    obtain ⟨l, hl, rfl⟩ := List.mem_map.mp hop
    exact hl
  | cons x xs ih =>
    induction b with
    | nil =>
      rw [diffOps_cons_nil]
      intro op hop hins
      rcases hop with _ | ⟨_, hop⟩
      · simp [Op.isIns] at hins
      · exact ih [] op hop hins
    | cons y ys ihb =>
      rw [diffOps_cons_cons]
      by_cases hxy : x = y
      · rw [if_pos hxy]
        intro op hop hins
        rcases hop with _ | ⟨_, hop⟩
        · simp [Op.isIns] at hins
        · exact List.mem_cons_of_mem y (ih ys op hop hins)
      · rw [if_neg hxy]
        by_cases hle : lcsLen (x :: xs) ys ≤ lcsLen xs (y :: ys)
        · rw [if_pos hle]
          intro op hop hins
          rcases hop with _ | ⟨_, hop⟩
          · simp [Op.isIns] at hins
          · exact ih (y :: ys) op hop hins
        · rw [if_neg hle]
          intro op hop hins
          rcases hop with _ | ⟨_, hop⟩
          · exact List.mem_cons_self y ys
          · exact List.mem_cons_of_mem y (ihb op hop hins)

theorem del_content_mem (a b : List String) :
    ∀ op ∈ diffOps a b, op.isDel = true → op.content ∈ a := by
  induction a generalizing b with
  | nil =>
    rw [diffOps_nil_left]
    intro op hop hdel
    obtain ⟨l, _, rfl⟩ := List.mem_map.mp hop
    simp [Op.isDel] at hdel
  | cons x xs ih =>
    induction b with
    | nil =>
      rw [diffOps_cons_nil]
      intro op hop hdel
      rcases hop with _ | ⟨_, hop⟩
      · exact List.mem_cons_self x xs
      · exact List.mem_cons_of_mem x (ih [] op hop hdel)
    | cons y ys ihb =>
      rw [diffOps_cons_cons]
      by_cases hxy : x = y
      · rw [if_pos hxy]
        intro op hop hdel
        rcases hop with _ | ⟨_, hop⟩
        · simp [Op.isDel] at hdel
        · exact List.mem_cons_of_mem x (ih ys op hop hdel)
      · rw [if_neg hxy]
        by_cases hle : lcsLen (x :: xs) ys ≤ lcsLen xs (y :: ys)
        · rw [if_pos hle]
          intro op hop hdel
          rcases hop with _ | ⟨_, hop⟩
          · exact List.mem_cons_self x xs
          · exact List.mem_cons_of_mem x (ih (y :: ys) op hop hdel)
        · rw [if_neg hle]
          intro op hop hdel
          rcases hop with _ | ⟨_, hop⟩
          · simp [Op.isDel] at hdel
          · exact ihb op hop hdel

theorem diffOps_self (x : List String) : diffOps x x = x.map Op.keep := by
  induction x with
  | nil => rfl
  | cons a l ih => rw [diffOps_cons_cons, if_pos rfl, ih]; rfl

/-! ## Counting the rendered unified-diff lines -/

theorem add3_zero_left (x : Nat × Nat × Nat) : add3 (0, 0, 0) x = x := by
  obtain ⟨i, d, u⟩ := x
  simp [add3]

theorem add3_zero_right (x : Nat × Nat × Nat) : add3 x (0, 0, 0) = x := by
  simp [add3]

theorem add3_zero_left_lit (x : Nat × Nat × Nat) : add3 0 x = x := add3_zero_left x

theorem add3_zero_right_lit (x : Nat × Nat × Nat) : add3 x 0 = x := add3_zero_right x

theorem countDiffLines_skip (l : String) (ls : List String)
    (h1 : hasPref l.data ['+'] = false) (h2 : hasPref l.data ['-'] = false)
    (h3 : hasPref l.data [' '] = false) :
    countDiffLines (l :: ls) = countDiffLines ls := by
  simp [countDiffLines, h1, h2, h3]

theorem noNlMarker_skip (ls : List String) :
    countDiffLines (noNlMarker :: ls) = countDiffLines ls :=
  countDiffLines_skip _ _ (by decide) (by decide) (by decide)

theorem countDiffLines_keepLine (cd : List Char) (ls : List String) :
    countDiffLines (String.mk (' ' :: cd) :: ls) =
      ((countDiffLines ls).1, (countDiffLines ls).2.1, (countDiffLines ls).2.2 + 1) := by
  simp [countDiffLines, hasPref]

theorem countDiffLines_insLine (cd : List Char) (ls : List String) :
    countDiffLines (String.mk ('+' :: cd) :: ls) =
      if hasPref cd ['+', '+'] then countDiffLines ls
      else ((countDiffLines ls).1 + 1, (countDiffLines ls).2.1, (countDiffLines ls).2.2) := by
  simp [countDiffLines, hasPref]

theorem countDiffLines_delLine (cd : List Char) (ls : List String) :
    countDiffLines (String.mk ('-' :: cd) :: ls) =
      if hasPref cd ['-', '-'] then countDiffLines ls
      else ((countDiffLines ls).1, (countDiffLines ls).2.1 + 1, (countDiffLines ls).2.2) := by
  simp [countDiffLines, hasPref]

theorem countDiffLines_renderOp (op : Op) (ls : List String) :
    countDiffLines (renderOpLines op ++ ls) = add3 (opCount op) (countDiffLines ls) := by
  cases op with
  | keep s =>
    by_cases hnl : lastIsNl s.data
    · simp only [renderOpLines, if_pos hnl, List.cons_append, List.nil_append,
        countDiffLines_keepLine, opCount, add3]
      simp [Nat.add_comm]
    · simp only [renderOpLines, if_neg hnl, List.cons_append, List.singleton_append,
        countDiffLines_keepLine, noNlMarker_skip, opCount, add3]
      simp [Nat.add_comm]
  | ins s =>
    by_cases hnl : lastIsNl s.data
    · simp only [renderOpLines, if_pos hnl, List.cons_append, List.nil_append,
        countDiffLines_insLine, opCount]
      split <;> simp [add3, Nat.add_comm]
    · simp only [renderOpLines, if_neg hnl, List.cons_append, List.singleton_append,
        countDiffLines_insLine, noNlMarker_skip, opCount]
      split <;> simp [add3, Nat.add_comm]
  | del s =>
    by_cases hnl : lastIsNl s.data
    · simp only [renderOpLines, if_pos hnl, List.cons_append, List.nil_append,
        countDiffLines_delLine, opCount]
      split <;> simp [add3, Nat.add_comm]
    · simp only [renderOpLines, if_neg hnl, List.cons_append, List.singleton_append,
        countDiffLines_delLine, noNlMarker_skip, opCount]
      split <;> simp [add3, Nat.add_comm]

theorem countDiffLines_renderList (h : List Op) (ls : List String) :
    countDiffLines (flatAll (h.map renderOpLines) ++ ls) =
      add3 (sumOpCounts h) (countDiffLines ls) := by
  induction h with
  | nil => simp [flatAll, sumOpCounts, add3_zero_left, add3_zero_left_lit]
  | cons op ops ih =>
    simp only [List.map_cons, flatAll, List.append_assoc]
    rw [countDiffLines_renderOp, ih, sumOpCounts]
    cases countDiffLines ls with
    | mk i r => simp [add3, Nat.add_assoc]

theorem hunkHeader_skip (ls : List String) :
    countDiffLines (hunkHeaderLine :: ls) = countDiffLines ls :=
  countDiffLines_skip _ _ (by decide) (by decide) (by decide)

theorem add3_assoc (x y z : Nat × Nat × Nat) : add3 (add3 x y) z = add3 x (add3 y z) := by
  simp [add3, Nat.add_assoc]

theorem sumOpCounts_append (xs ys : List Op) :
    sumOpCounts (xs ++ ys) = add3 (sumOpCounts xs) (sumOpCounts ys) := by
  induction xs with
  | nil => simp [sumOpCounts, add3_zero_left, add3_zero_left_lit]
  | cons op ops ih => simp [sumOpCounts, ih, add3_assoc]

theorem countDiffLines_body (H : List (List Op)) (ls : List String) :
    countDiffLines
      (flatAll (H.map (fun h => hunkHeaderLine :: flatAll (h.map renderOpLines))) ++ ls) =
      add3 (sumOpCounts (flatAll H)) (countDiffLines ls) := by
  induction H with
  | nil => simp [flatAll, sumOpCounts, add3_zero_left, add3_zero_left_lit]
  | cons h rest ih =>
    simp only [List.map_cons, flatAll, List.cons_append, List.append_assoc]
    rw [hunkHeader_skip, countDiffLines_renderList, ih, sumOpCounts_append, add3_assoc]

/-! ## The hunk grouping keeps every change operation exactly once -/

theorem filter_change_nil_of_keeps (l : List Op)
    (hp : ∀ op ∈ l, op.isChange = false) : l.filter Op.isChange = [] := by
  induction l with
  | nil => rfl
  | cons op ops ih =>
    have h0 := hp op (List.mem_cons_self op ops)
    rw [List.filter_cons, if_neg (by simp [h0])]
    exact ih (fun x hx => hp x (List.mem_cons_of_mem op hx))

theorem groupGo_flat_filter (ctx : Nat) (ops cur pending : List Op)
    (hp : ∀ op ∈ pending, op.isChange = false) :
    (flatAll (groupGo ctx ops cur pending)).filter Op.isChange =
      cur.filter Op.isChange ++ ops.filter Op.isChange := by
  induction ops generalizing cur pending with
  | nil =>
    simp only [groupGo]
    by_cases hc : cur.isEmpty
    · rw [if_pos hc, List.isEmpty_iff.mp hc]
      simp [flatAll]
    · rw [if_neg hc]
      simp only [flatAll, List.append_nil, List.filter_append, List.filter_nil]
      rw [filter_change_nil_of_keeps (pending.take ctx)
        (fun op hop => hp op (List.take_subset ctx pending hop))]
      simp
  | cons op rest ih =>
    simp only [groupGo]
    by_cases hch : op.isChange
    · rw [if_pos hch]
      by_cases hc : cur.isEmpty
      · rw [if_pos hc]
        rw [ih _ [] (by simp)]
        rw [List.isEmpty_iff.mp hc]
        rw [List.filter_append,
          filter_change_nil_of_keeps (lastN ctx pending)
            (fun o ho => hp o (List.drop_subset _ pending ho))]
        simp [List.filter_cons, hch]
      · by_cases hlen : pending.length ≤ 2 * ctx
        · rw [if_neg hc, if_pos hlen]
          rw [ih _ [] (by simp)]
          rw [List.filter_append, List.filter_append,
            filter_change_nil_of_keeps pending hp]
          simp [List.filter_cons, hch]
        · rw [if_neg hc, if_neg hlen]
          simp only [flatAll]
          rw [List.filter_append, ih _ [] (by simp),
            List.filter_append, List.filter_append,
            filter_change_nil_of_keeps (pending.take ctx)
              (fun o ho => hp o (List.take_subset ctx pending ho)),
            filter_change_nil_of_keeps (lastN ctx pending)
              (fun o ho => hp o (List.drop_subset _ pending ho))]
          simp [List.filter_cons, hch]
    · rw [if_neg hch]
      rw [ih cur (pending ++ [op]) (by
        intro x hx
        rcases List.mem_append.mp hx with hx | hx
        · exact hp x hx
        · rcases List.mem_singleton.mp hx with rfl
          exact Bool.eq_false_iff.mpr hch)]
      have : Op.isChange op = false := Bool.eq_false_iff.mpr hch
      simp [List.filter_cons, this]

theorem countP_via_filter (p q : Op → Bool) (l : List Op)
    (h : ∀ x, p x = true → q x = true) :
    l.countP p = (l.filter q).countP p := by
  induction l with
  | nil => rfl
  | cons a l ih =>
    by_cases hq : q a = true
    · rw [List.filter_cons, if_pos (by simp [hq]), List.countP_cons, List.countP_cons, ih]
    · have hpa : p a = false := by
        cases hpa : p a
        · rfl
        · exact absurd (h a hpa) hq
      rw [List.filter_cons, if_neg (by simp [hq]), List.countP_cons, ih, hpa]
      simp

theorem groupHunks_countP (ctx : Nat) (ops : List Op) (p : Op → Bool)
    (himp : ∀ op, p op = true → op.isChange = true) :
    (flatAll (groupHunks ctx ops)).countP p = ops.countP p := by
  have h := groupGo_flat_filter ctx ops [] [] (by simp)
  simp only [List.filter_nil, List.nil_append] at h
  simp only [groupHunks]
  rw [countP_via_filter p Op.isChange _ himp, h,
    ← countP_via_filter p Op.isChange ops himp]

/-! ## Master lemmas: the counts are counts of rendered operations -/

theorem insCounted_isChange (op : Op) : op.insCounted = true → op.isChange = true := by
  cases op <;> simp [Op.insCounted]

theorem delCounted_isChange (op : Op) : op.delCounted = true → op.isChange = true := by
  cases op <;> simp [Op.delCounted]

theorem sumOpCounts_fst (ops : List Op) :
    (sumOpCounts ops).1 = ops.countP Op.insCounted := by
  induction ops with
  | nil => rfl
  | cons op rest ih =>
    rw [sumOpCounts, List.countP_cons]
    cases op with
    | keep s => simp [opCount, add3, Op.insCounted, ih]
    | ins s =>
      simp only [opCount, Op.insCounted, isIns_ins, Bool.true_and]
      split <;> simp_all [add3, Nat.add_comm]
    | del s =>
      simp only [opCount, Op.insCounted, isIns_del, Bool.false_and]
      split <;> simp_all [add3]

theorem sumOpCounts_snd (ops : List Op) :
    (sumOpCounts ops).2.1 = ops.countP Op.delCounted := by
  induction ops with
  | nil => rfl
  | cons op rest ih =>
    rw [sumOpCounts, List.countP_cons]
    cases op with
    | keep s => simp [opCount, add3, Op.delCounted, ih]
    | ins s =>
      simp only [opCount, Op.delCounted, isDel_ins, Bool.false_and]
      split <;> simp_all [add3]
    | del s =>
      simp only [opCount, Op.delCounted, isDel_del, Bool.true_and]
      split <;> simp_all [add3, Nat.add_comm]

theorem header_minus_skip (f : String) (ls : List String) :
    countDiffLines (("--- " ++ f) :: ls) = countDiffLines ls := by
  simp [countDiffLines, String.data_append, hasPref,
    show "--- ".data = ['-', '-', '-', ' '] from rfl,
    show (('-' : Char) == '+') = false from rfl,
    show (('-' : Char) == '-') = true from rfl]

theorem header_plus_skip (t : String) (ls : List String) :
    countDiffLines (("+++ " ++ t) :: ls) = countDiffLines ls := by
  simp [countDiffLines, String.data_append, hasPref,
    show "+++ ".data = ['+', '+', '+', ' '] from rfl,
    show (('+' : Char) == '+') = true from rfl]

theorem toUnified_eval (f t : String) (ops : List Op) (h : ops.any Op.isChange = true) :
    countDiffLines (toUnifiedLines f t ops) = sumOpCounts (flatAll (groupHunks 3 ops)) := by
  rw [toUnifiedLines, if_pos h, header_minus_skip, header_plus_skip]
  rw [show flatAll ((groupHunks 3 ops).map
      (fun h => hunkHeaderLine :: flatAll (h.map renderOpLines))) =
    flatAll ((groupHunks 3 ops).map
      (fun h => hunkHeaderLine :: flatAll (h.map renderOpLines))) ++ [] from
      (List.append_nil _).symm]
  rw [countDiffLines_body]
  exact add3_zero_right _

theorem toUnified_ins (f t : String) (ops : List Op) :
    (countDiffLines (toUnifiedLines f t ops)).1 = ops.countP Op.insCounted := by
  by_cases h : ops.any Op.isChange = true
  · rw [toUnified_eval f t ops h, sumOpCounts_fst,
      groupHunks_countP 3 ops Op.insCounted insCounted_isChange]
  · rw [toUnifiedLines, if_neg h]
    have hz : ops.countP Op.insCounted = 0 := by
      rw [List.countP_eq_zero]
      intro op hop hcnt
      have := insCounted_isChange op hcnt
      rw [List.any_eq_true] at h
      exact h ⟨op, hop, this⟩
    rw [hz]; rfl

theorem toUnified_del (f t : String) (ops : List Op) :
    (countDiffLines (toUnifiedLines f t ops)).2.1 = ops.countP Op.delCounted := by
  by_cases h : ops.any Op.isChange = true
  · rw [toUnified_eval f t ops h, sumOpCounts_snd,
      groupHunks_countP 3 ops Op.delCounted delCounted_isChange]
  · rw [toUnifiedLines, if_neg h]
    have hz : ops.countP Op.delCounted = 0 := by
      rw [List.countP_eq_zero]
      intro op hop hcnt
      have := delCounted_isChange op hcnt
      rw [List.any_eq_true] at h
      exact h ⟨op, hop, this⟩
    rw [hz]; rfl

/-! ## ComputeWordLevel in terms of the edit script -/

theorem computeWordLevel_hunks (a b : String) : (computeWordLevel a b).hunks = [] := rfl

theorem compute_hunks (a b va vb : String) : (compute a b va vb).hunks = [] := rfl

theorem computeWordLevel_ins (a b : String) :
    (computeWordLevel a b).insertions =
      (diffOps (wlLines a) (wlLines b)).countP Op.insCounted :=
  toUnified_ins "a" "b" (diffOps (wlLines a) (wlLines b))

theorem computeWordLevel_del (a b : String) :
    (computeWordLevel a b).deletions =
      (diffOps (wlLines a) (wlLines b)).countP Op.delCounted :=
  toUnified_del "a" "b" (diffOps (wlLines a) (wlLines b))

theorem hasPref_nil_pat (l : List Char) : hasPref l [] = true := by
  cases l <;> rfl

theorem hasPref_extend (l t p : List Char) (h : hasPref l p = true) :
    hasPref (l ++ t) p = true := by
  induction p generalizing l with
  | nil => exact hasPref_nil_pat (l ++ t)
  | cons q qs ih =>
    cases l with
    | nil => simp [hasPref] at h
    | cons c cs =>
      simp only [hasPref, Bool.and_eq_true] at h
      simp only [List.cons_append, hasPref, Bool.and_eq_true]
      exact ⟨h.1, ih cs h.2⟩

theorem hasPref_of_chomp (l p : List Char) (h : hasPref (chompData l) p = true) :
    hasPref l p = true := by
  by_cases hnl : lastIsNl l = true
  · rw [chompData, if_pos hnl] at h
    have hne : l ≠ [] := by
      intro hl
      rw [hl] at hnl
      simp [lastIsNl] at hnl
    rw [← List.dropLast_append_getLast hne]
    exact hasPref_extend _ _ _ h
  · rw [chompData, if_neg hnl] at h
    exact h

theorem hasPref_chomp_false (l p : List Char) (h : hasPref l p = false) :
    hasPref (chompData l) p = false := by
  cases hc : hasPref (chompData l) p
  · rfl
  · rw [hasPref_of_chomp l p hc] at h
    cases h

theorem counted_ins_of_no_marker (A B : List String)
    (hb : ∀ l ∈ B, hasPref l.data ['+', '+'] = false) :
    (diffOps A B).countP Op.insCounted = (diffOps A B).countP Op.isIns := by
  apply List.countP_congr
  intro op hop
  cases hins : op.isIns with
  | false => simp [Op.insCounted, hins]
  | true =>
    have hmem := ins_content_mem A B op hop hins
    have h2 := hasPref_chomp_false _ ['+', '+'] (hb op.content hmem)
    simp [Op.insCounted, hins, h2]

theorem counted_del_of_no_marker (A B : List String)
    (ha : ∀ l ∈ A, hasPref l.data ['-', '-'] = false) :
    (diffOps A B).countP Op.delCounted = (diffOps A B).countP Op.isDel := by
  apply List.countP_congr
  intro op hop
  cases hdel : op.isDel with
  | false => simp [Op.delCounted, hdel]
  | true =>
    have hmem := del_content_mem A B op hop hdel
    have h2 := hasPref_chomp_false _ ['-', '-'] (ha op.content hmem)
    simp [Op.delCounted, hdel, h2]

/-! ## Tokenizer round trip and invariants -/

theorem flatAll_append (xs ys : List (List α)) :
    flatAll (xs ++ ys) = flatAll xs ++ flatAll ys := by
  induction xs with
  | nil => rfl
  | cons l ls ih => simp [flatAll, ih]

theorem tokenizeChars_flat (cs cur : List Char) :
    flatAll (tokenizeChars cs cur) = cur ++ cs := by
  induction cs generalizing cur with
  | nil =>
    simp only [tokenizeChars]
    by_cases hc : cur.isEmpty
    · rw [if_pos hc, List.isEmpty_iff.mp hc]; rfl
    · rw [if_neg hc]; simp [flatAll]
  | cons c rest ih =>
    simp only [tokenizeChars]
    by_cases hsep : isSepChar c = true
    · rw [if_pos hsep, flatAll_append]
      by_cases hc : cur.isEmpty
      · rw [if_pos hc, List.isEmpty_iff.mp hc]
        simp [flatAll, ih []]
      · rw [if_neg hc]
        simp [flatAll, ih []]
    · rw [if_neg hsep, ih (cur ++ [c])]
      simp

theorem mk_append (a b : List Char) : String.mk a ++ String.mk b = String.mk (a ++ b) := rfl

theorem foldl_append_map_mk (L : List (List Char)) (s : String) :
    List.foldl (fun r t => r ++ t) s (L.map String.mk) = s ++ String.mk (flatAll L) := by
  induction L generalizing s with
  | nil =>
    show s = s ++ String.mk []
    rw [show String.mk ([] : List Char) = "" from rfl, String.append_empty]
  | cons l ls ih =>
    simp only [List.map_cons, List.foldl_cons]
    rw [ih (s ++ String.mk l), String.append_assoc, mk_append]
    rfl

theorem join_tokenizeChars (t : String) :
    String.join (tokenize t) = t := by
  rw [tokenize, String.join, foldl_append_map_mk, tokenizeChars_flat]
  show String.mk t.data = t
  cases t
  rfl

theorem sep_char_cases (c : Char) (h : isSepChar c = true) :
    c = ' ' ∨ c = '\n' ∨ c = '\t' := by
  have h2 : (c = ' ' ∨ c = '\n') ∨ c = '\t' := by simpa [isSepChar] using h
  tauto

theorem tokenizeChars_tokens (cs cur : List Char)
    (hcur : ∀ c ∈ cur, isSepChar c = false) :
    ∀ l ∈ tokenizeChars cs cur,
      l ≠ [] ∧ (isWsTokChars l = true ∨ ∀ c ∈ l, isSepChar c = false) := by
  induction cs generalizing cur with
  | nil =>
    simp only [tokenizeChars]
    by_cases hc : cur.isEmpty
    · rw [if_pos hc]
      intro l hl
      cases hl
    · rw [if_neg hc]
      intro l hl
      rw [List.mem_singleton] at hl
      subst hl
      exact ⟨by simpa [List.isEmpty_iff] using hc, Or.inr hcur⟩
  | cons c rest ih =>
    simp only [tokenizeChars]
    by_cases hsep : isSepChar c = true
    · rw [if_pos hsep]
      intro l hl
      rcases List.mem_append.mp hl with hl | hl
      · by_cases hc : cur.isEmpty
        · rw [if_pos hc] at hl
          cases hl
        · rw [if_neg hc] at hl
          rw [List.mem_singleton] at hl
          subst hl
          exact ⟨by simpa [List.isEmpty_iff] using hc, Or.inr hcur⟩
      · rcases List.mem_cons.mp hl with rfl | hl
        · refine ⟨by simp, Or.inl ?_⟩
          rcases sep_char_cases c hsep with rfl | rfl | rfl <;> rfl
        · exact ih [] (by simp) l hl
    · rw [if_neg hsep]
      intro l hl
      refine ih (cur ++ [c]) ?_ l hl
      intro x hx
      rcases List.mem_append.mp hx with hx | hx
      · exact hcur x hx
      · rw [List.mem_singleton] at hx
        subst hx
        exact Bool.eq_false_iff.mpr hsep

theorem tokenizeChars_chain (cs cur : List Char) :
    List.Chain' (fun s u => isWsTokChars s = true ∨ isWsTokChars u = true)
      (tokenizeChars cs cur) := by
  induction cs generalizing cur with
  | nil =>
    simp only [tokenizeChars]
    by_cases hc : cur.isEmpty
    · rw [if_pos hc]
      exact List.chain'_nil
    · rw [if_neg hc]
      exact List.chain'_singleton _
  | cons c rest ih =>
    simp only [tokenizeChars]
    by_cases hsep : isSepChar c = true
    · rw [if_pos hsep]
      have hws : isWsTokChars [c] = true := by
        rcases sep_char_cases c hsep with rfl | rfl | rfl <;> rfl
      have hchain :
          List.Chain' (fun s u => isWsTokChars s = true ∨ isWsTokChars u = true)
            ([c] :: tokenizeChars rest []) := by
        rw [List.chain'_cons']
        exact ⟨fun y _ => Or.inl hws, ih []⟩
      by_cases hc : cur.isEmpty
      · rw [if_pos hc]
        simpa using hchain
      · rw [if_neg hc, List.singleton_append, List.chain'_cons']
        refine ⟨fun y hy => ?_, hchain⟩
        simp only [List.head?_cons, Option.mem_def, Option.some.injEq] at hy
        subst hy
        exact Or.inr hws
    · rw [if_neg hsep]
      exact ih (cur ++ [c])

/-! ## Self diff and empty input -/

theorem any_change_map_keep (L : List String) :
    ((L.map Op.keep).any Op.isChange) = false := by
  induction L with
  | nil => rfl
  | cons x xs ih => simp [ih]

theorem computeWordLevel_self (t : String) :
    computeWordLevel t t =
      { versionA := "", versionB := "", hunks := [],
        insertions := 0, deletions := 0, unchanged := 0 } := by
  have h : diffOps (wlLines t) (wlLines t) = (wlLines t).map Op.keep := diffOps_self _
  have hany : (diffOps (wlLines t) (wlLines t)).any Op.isChange = false := by
    rw [h]
    exact any_change_map_keep _
  simp [computeWordLevel, toUnifiedLines, hany, countDiffLines]

theorem compute_self (t va vb : String) :
    (compute t t va vb).insertions = 0 ∧ (compute t t va vb).deletions = 0 ∧
      (compute t t va vb).unchanged = (splitNl t).length := by
  have h : diffOps (splitLinesKeep t) (splitLinesKeep t) =
      (splitLinesKeep t).map Op.keep := diffOps_self _
  have hany : (diffOps (splitLinesKeep t) (splitLinesKeep t)).any Op.isChange = false := by
    rw [h]
    exact any_change_map_keep _
  simp [compute, toUnifiedLines, hany, countDiffLines]

/-! ## Service-layer evaluation lemmas -/

theorem computeDiff_hit (db : DBState) (putOk : Bool) (A B : Nat) (vA vB : Version)
    (d : StoredDelta)
    (hA : findVersion db A = some vA) (hB : findVersion db B = some vB)
    (hhit : findDelta db A B = some d) :
    computeDiff db putOk A B =
      .ok (deltaToResponse d vA.versionCode vB.versionCode, db, false) := by
  simp only [computeDiff, hA, hB, hhit]

theorem computeDiff_large (db : DBState) (putOk : Bool) (A B : Nat) (vA vB : Version)
    (hA : findVersion db A = some vA) (hB : findVersion db B = some vB)
    (hmiss : findDelta db A B = none)
    (hsz : utf8Len vA.textContent > maxDiffSize ∨ utf8Len vB.textContent > maxDiffSize) :
    computeDiff db putOk A B =
      .ok (mockLargeResponse vA.versionCode vB.versionCode, db, false) := by
  simp only [computeDiff, hA, hB, hmiss]
  rw [if_pos hsz]

theorem computeDiff_miss_small (db : DBState) (putOk : Bool) (A B : Nat) (vA vB : Version)
    (hA : findVersion db A = some vA) (hB : findVersion db B = some vB)
    (hmiss : findDelta db A B = none)
    (hsz : ¬(utf8Len vA.textContent > maxDiffSize ∨ utf8Len vB.textContent > maxDiffSize)) :
    computeDiff db putOk A B =
      .ok (responseFromDelta vA.versionCode vB.versionCode
            (computeWordLevel vA.textContent vB.textContent),
          (if putOk then
            ⟨db.versions, db.deltas ++
              [⟨A, B, (computeWordLevel vA.textContent vB.textContent).insertions,
                (computeWordLevel vA.textContent vB.textContent).deletions⟩]⟩
          else db),
          true) := by
  simp only [computeDiff, hA, hB, hmiss]
  rw [if_neg hsz]

theorem responseFromDelta_wordLevel (fc tc a b : String) :
    responseFromDelta fc tc (computeWordLevel a b) =
      ⟨fc, tc, (computeWordLevel a b).insertions,
        (computeWordLevel a b).deletions, [], []⟩ := rfl

theorem findVersion_ignores_deltas (db : DBState) (ds : List StoredDelta) (id : Nat) :
    findVersion ⟨db.versions, ds⟩ id = findVersion db id := rfl

theorem findDelta_after_put (db : DBState) (A B i d : Nat)
    (hmiss : findDelta db A B = none) :
    findDelta ⟨db.versions, db.deltas ++ [⟨A, B, i, d⟩]⟩ A B = some ⟨A, B, i, d⟩ := by
  simp only [findDelta] at hmiss ⊢
  rw [List.find?_append, hmiss]
  simp

theorem findDelta_after_put_swap (db : DBState) (A B i d : Nat) (hAB : A ≠ B)
    (hmiss : findDelta db B A = none) :
    findDelta ⟨db.versions, db.deltas ++ [⟨A, B, i, d⟩]⟩ B A = none := by
  simp only [findDelta] at hmiss ⊢
  rw [List.find?_append, hmiss]
  simp only [Option.none_or]
  rw [List.find?_cons_of_neg, List.find?_nil]
  simp only [Bool.and_eq_true, beq_iff_eq]
  intro hcontra
  exact hAB hcontra.1

theorem utf8LenChars_replicate (n : Nat) : utf8LenChars (List.replicate n 'a') = n := by
  induction n with
  | zero => rfl
  | succ n ih =>
    rw [List.replicate_succ, utf8LenChars, ih,
      show Char.utf8Size 'a' = 1 from rfl, Nat.add_comm]

theorem utf8Len_bigText : utf8Len bigText = 110000 :=
  utf8LenChars_replicate 110000

/-! ## Claim C1: pair-key normalization -/

/-- C1, counterexample: the claim says a ComputeDiff(B,A) following
ComputeDiff(A,B) hits the same cache entry and performs no second real
computation. On the concrete store `exDB`, ComputeDiff(1,2) stores its row
(state `exDb1`), yet ComputeDiff(2,1) runs the real computation again
(instrumentation flag `true`) and appends a second row: the cache key is the
ordered pair, not a normalized one. -/
theorem c1_counterexample :
    computeDiff exDB true 1 2 = .ok (exResp1, exDb1, true) ∧
    computeDiff exDb1 true 2 1 =
      .ok (⟨"EH", "IH", 1, 1, [], []⟩,
        ⟨exDB.versions, [⟨1, 2, 1, 1⟩, ⟨2, 1, 1, 1⟩]⟩, true) := by
  decide

/-- C1, amended: the cache key of `ComputeDiff` is the ordered pair
(fromVersionID, toVersionID). After a real computation for (A,B) has stored
its row, repeating (A,B) hits the cache and performs no real computation,
while the reversed query (B,A) misses, performs a second real computation and
leaves two rows in the deltas table. -/
theorem c1_ordered_cache_key (db : DBState) (A B : Nat) (vA vB : Version)
    (hA : findVersion db A = some vA) (hB : findVersion db B = some vB)
    (hmissAB : findDelta db A B = none) (hmissBA : findDelta db B A = none)
    (hAB : A ≠ B)
    (hszA : ¬utf8Len vA.textContent > maxDiffSize)
    (hszB : ¬utf8Len vB.textContent > maxDiffSize) :
    ∃ r db2, computeDiff db true A B = .ok (r, db2, true) ∧
      (∃ r2, computeDiff db2 true A B = .ok (r2, db2, false)) ∧
      (∃ r3 db3, computeDiff db2 true B A = .ok (r3, db3, true) ∧
        db3.deltas.length = db.deltas.length + 2) := by
  have hsz : ¬(utf8Len vA.textContent > maxDiffSize ∨ utf8Len vB.textContent > maxDiffSize) :=
    not_or.mpr ⟨hszA, hszB⟩
  have hszR : ¬(utf8Len vB.textContent > maxDiffSize ∨ utf8Len vA.textContent > maxDiffSize) :=
    not_or.mpr ⟨hszB, hszA⟩
  have h1 := computeDiff_miss_small db true A B vA vB hA hB hmissAB hsz
  rw [if_pos rfl] at h1
  set delta := computeWordLevel vA.textContent vB.textContent with hdelta
  set db2 : DBState :=
    ⟨db.versions, db.deltas ++ [⟨A, B, delta.insertions, delta.deletions⟩]⟩ with hdb2
  have h2 := computeDiff_hit db2 true A B vA vB ⟨A, B, delta.insertions, delta.deletions⟩
    hA hB (findDelta_after_put db A B _ _ hmissAB)
  have h3 := computeDiff_miss_small db2 true B A vB vA hB hA
    (findDelta_after_put_swap db A B _ _ hAB hmissBA) hszR
  rw [if_pos rfl] at h3
  refine ⟨_, db2, h1, ⟨_, h2⟩, _, _, h3, ?_⟩
  simp [hdb2, List.length_append]

/-- C1, witness for the amended theorem at the concrete store `exDB`. -/
theorem c1_ordered_cache_key_witness :
    ∃ r db2, computeDiff exDB true 1 2 = .ok (r, db2, true) ∧
      (∃ r2, computeDiff db2 true 1 2 = .ok (r2, db2, false)) ∧
      (∃ r3 db3, computeDiff db2 true 2 1 = .ok (r3, db3, true) ∧
        db3.deltas.length = exDB.deltas.length + 2) :=
  c1_ordered_cache_key exDB 1 2 ⟨1, "IH", "a"⟩ ⟨2, "EH", "b"⟩ (by decide) (by decide)
    (by decide) (by decide) (by decide) (by decide) (by decide)

/-! ## Claim C2: cache-hit idempotence -/

/-- C2: for a stored pair of versions, a first `ComputeDiff` call that
computes and persists its delta and a second call that takes the cache-hit
path return the same `DiffResponse` (equal insertions, deletions, lines and
segments); the stored counts are returned unchanged on the hit. The equality
is exact because the real path builds its lines and segments from the delta's
hunk list, which diff.go always leaves empty. -/
theorem c2_cache_hit_idempotent (db : DBState) (A B : Nat) (vA vB : Version)
    (hA : findVersion db A = some vA) (hB : findVersion db B = some vB)
    (hmiss : findDelta db A B = none)
    (hsz : ¬(utf8Len vA.textContent > maxDiffSize ∨ utf8Len vB.textContent > maxDiffSize)) :
    ∃ r db2, computeDiff db true A B = .ok (r, db2, true) ∧
      computeDiff db2 true A B = .ok (r, db2, false) := by
  have h1 := computeDiff_miss_small db true A B vA vB hA hB hmiss hsz
  rw [if_pos rfl] at h1
  set delta := computeWordLevel vA.textContent vB.textContent with hdelta
  set db2 : DBState :=
    ⟨db.versions, db.deltas ++ [⟨A, B, delta.insertions, delta.deletions⟩]⟩ with hdb2
  refine ⟨_, db2, h1, ?_⟩
  have h2 := computeDiff_hit db2 true A B vA vB ⟨A, B, delta.insertions, delta.deletions⟩
    hA hB (findDelta_after_put db A B _ _ hmiss)
  rw [h2]
  rfl

/-- C2, witness at the concrete store `exDB`. -/
theorem c2_cache_hit_idempotent_witness :
    ∃ r db2, computeDiff exDB true 1 2 = .ok (r, db2, true) ∧
      computeDiff db2 true 1 2 = .ok (r, db2, false) :=
  c2_cache_hit_idempotent exDB 1 2 ⟨1, "IH", "a"⟩ ⟨2, "EH", "b"⟩
    (by decide) (by decide) (by decide) (by decide)

/-! ## Claim C3: size-fallback policy -/

/-- C3, counterexample: on the oversized store `bigDB` the claim's returned
"placeholder marked as non-authoritative via a boolean or enum flag" does not
exist: the response is the plain fixed sample `mockLargeResponse`, whose
every line and segment type is one of the three ordinary diff values
(`unchanged`, `insertion`, `deletion`); the faithful embedding of the source
struct `DiffResponse` has no `isApproximate`-like field at all. The only
marking is a note sentence inside one line's text. -/
theorem c3_counterexample :
    computeDiff bigDB true 1 2 = .ok (mockLargeResponse "IH" "EH", bigDB, false) ∧
    (mockLargeResponse "IH" "EH").lines.all
      (fun l => l.type == "unchanged" || l.type == "insertion" || l.type == "deletion") = true ∧
    (mockLargeResponse "IH" "EH").segments.all
      (fun s => s.type == "unchanged" || s.type == "insertion" || s.type == "deletion") = true := by
  refine ⟨?_, by decide, by decide⟩
  exact computeDiff_large bigDB true 1 2 ⟨1, "IH", bigText⟩ ⟨2, "EH", "b"⟩ rfl rfl rfl
    (by left; rw [utf8Len_bigText]; decide)

/-- C3, amended: on a cache miss, if either text exceeds the hardcoded 100KB
limit then `ComputeDiff` does not invoke the real computation and returns the
fixed sample response unchanged-in-state (nothing is cached); at or under the
limit the real computation runs. No boolean or enum flag marks the sample
response. -/
theorem c3_size_fallback (db : DBState) (putOk : Bool) (A B : Nat) (vA vB : Version)
    (hA : findVersion db A = some vA) (hB : findVersion db B = some vB)
    (hmiss : findDelta db A B = none) :
    (utf8Len vA.textContent > maxDiffSize ∨ utf8Len vB.textContent > maxDiffSize →
      computeDiff db putOk A B =
        .ok (mockLargeResponse vA.versionCode vB.versionCode, db, false)) ∧
    (¬(utf8Len vA.textContent > maxDiffSize ∨ utf8Len vB.textContent > maxDiffSize) →
      ∃ r db2, computeDiff db putOk A B = .ok (r, db2, true)) :=
  ⟨fun hsz => computeDiff_large db putOk A B vA vB hA hB hmiss hsz,
   fun hsz => ⟨_, _, computeDiff_miss_small db putOk A B vA vB hA hB hmiss hsz⟩⟩

/-- C3, witness: the oversized branch of the amended theorem at `bigDB`. -/
theorem c3_size_fallback_witness :
    computeDiff bigDB true 1 2 = .ok (mockLargeResponse "IH" "EH", bigDB, false) := by
  have h := (c3_size_fallback bigDB true 1 2 ⟨1, "IH", bigText⟩ ⟨2, "EH", "b"⟩ rfl rfl rfl).1
  apply h
  left
  rw [utf8Len_bigText]
  decide

/-! ## Claim C4: Delta/Hunk consistency invariant -/

/-- C4, counterexample: for the texts "a" and "b" the engine reports one
insertion and one deletion, yet the returned hunk list carries no operations
at all, so the counts do not equal the operation counts across the hunks and
concatenating the hunks' operations yields the empty script, not the full
edit script. -/
theorem c4_counterexample :
    (computeWordLevel "a" "b").insertions = 1 ∧
    (computeWordLevel "a" "b").deletions = 1 ∧
    flatAll ((computeWordLevel "a" "b").hunks.map Hunk.lines) = [] ∧
    (computeWordLevel "a" "b").insertions ≠
      (flatAll ((computeWordLevel "a" "b").hunks.map Hunk.lines)).countP
        (fun ch => ch.type == "insert") := by
  decide

/-- C4, amended: the hunk list of every `Delta` returned by `Compute` or
`ComputeWordLevel` is empty, so the counts cannot be derived from the hunks;
instead, insertions and deletions equal the number of insert and delete
operations of the underlying edit script whose rendered unified-diff line is
not miscounted as a header (operations whose line starts with two further
plus or minus signs are skipped). -/
theorem c4_hunks_always_empty (a b va vb : String) :
    (computeWordLevel a b).hunks = [] ∧ (compute a b va vb).hunks = [] ∧
    (computeWordLevel a b).insertions =
      (diffOps (wlLines a) (wlLines b)).countP Op.insCounted ∧
    (computeWordLevel a b).deletions =
      (diffOps (wlLines a) (wlLines b)).countP Op.delCounted :=
  ⟨rfl, rfl, computeWordLevel_ins a b, computeWordLevel_del a b⟩

/-! ## Claim C5: self-diff identity -/

/-- C5, counterexample: the claim says a self-diff reports unchanged equal to
the token count. For t = "hi" the word-level engine (the one `ComputeDiff`
uses) reports insertions, deletions and unchanged all 0 while the token count
is 1. -/
theorem c5_counterexample :
    (computeWordLevel "hi" "hi").insertions = 0 ∧
    (computeWordLevel "hi" "hi").deletions = 0 ∧
    (computeWordLevel "hi" "hi").unchanged = 0 ∧
    (tokenize "hi").length = 1 ∧
    (computeWordLevel "hi" "hi").unchanged ≠ (tokenize "hi").length := by
  decide

/-- C5, amended: a self-diff yields insertions = 0 and deletions = 0 under
both engines; `ComputeWordLevel` reports unchanged = 0 (not the token count),
while the line-level `Compute` reports unchanged equal to the number of
newline-separated lines of the text (its token count at line granularity). -/
theorem c5_self_diff (t va vb : String) :
    computeWordLevel t t =
      { versionA := "", versionB := "", hunks := [],
        insertions := 0, deletions := 0, unchanged := 0 } ∧
    (compute t t va vb).insertions = 0 ∧ (compute t t va vb).deletions = 0 ∧
    (compute t t va vb).unchanged = (splitNl t).length :=
  ⟨computeWordLevel_self t, compute_self t va vb⟩

/-! ## Claim C6: direction-swap symmetry -/

/-- C6, counterexample: for a = "" and b = "++" the single inserted token
renders as the line "+++", which the counting loop skips as a header, so
insertions(a,b) = 0 while deletions(b,a) = 1: the claimed symmetry
insertions(a,b) = deletions(b,a) fails. -/
theorem c6_counterexample :
    (computeWordLevel "" "++").insertions = 0 ∧
    (computeWordLevel "++" "").deletions = 1 ∧
    (computeWordLevel "" "++").insertions ≠ (computeWordLevel "++" "").deletions := by
  decide

/-- C6, amended: direction-swap symmetry holds whenever no diffed line of
either text starts with two plus signs or two minus signs (such lines are
miscounted as unified-diff headers): then deletions(a,b) = insertions(b,a)
and insertions(a,b) = deletions(b,a), because a minimal script deletes
exactly length(a) minus the longest-common-subsequence length and inserts
exactly length(b) minus the same symmetric quantity. -/
theorem c6_direction_swap (a b : String)
    (ha : ∀ l ∈ wlLines a,
      hasPref l.data ['+', '+'] = false ∧ hasPref l.data ['-', '-'] = false)
    (hb : ∀ l ∈ wlLines b,
      hasPref l.data ['+', '+'] = false ∧ hasPref l.data ['-', '-'] = false) :
    (computeWordLevel a b).deletions = (computeWordLevel b a).insertions ∧
    (computeWordLevel a b).insertions = (computeWordLevel b a).deletions := by
  have e1 : (computeWordLevel a b).deletions =
      (diffOps (wlLines a) (wlLines b)).countP Op.isDel := by
    rw [computeWordLevel_del,
      counted_del_of_no_marker (wlLines a) (wlLines b) (fun l hl => (ha l hl).2)]
  have e2 : (computeWordLevel b a).insertions =
      (diffOps (wlLines b) (wlLines a)).countP Op.isIns := by
    rw [computeWordLevel_ins,
      counted_ins_of_no_marker (wlLines b) (wlLines a) (fun l hl => (ha l hl).1)]
  have e3 : (computeWordLevel a b).insertions =
      (diffOps (wlLines a) (wlLines b)).countP Op.isIns := by
    rw [computeWordLevel_ins,
      counted_ins_of_no_marker (wlLines a) (wlLines b) (fun l hl => (hb l hl).1)]
  have e4 : (computeWordLevel b a).deletions =
      (diffOps (wlLines b) (wlLines a)).countP Op.isDel := by
    rw [computeWordLevel_del,
      counted_del_of_no_marker (wlLines b) (wlLines a) (fun l hl => (hb l hl).2)]
  have d1 := del_count (wlLines a) (wlLines b)
  have i1 := ins_count (wlLines b) (wlLines a)
  have i2 := ins_count (wlLines a) (wlLines b)
  have d2 := del_count (wlLines b) (wlLines a)
  have hc := lcsLen_comm (wlLines a) (wlLines b)
  constructor
  · rw [e1, e2]
    omega
  · rw [e3, e4]
    omega

/-- C6, witness at a = "x", b = "y z". -/
theorem c6_direction_swap_witness :
    (computeWordLevel "x" "y z").deletions = (computeWordLevel "y z" "x").insertions ∧
    (computeWordLevel "x" "y z").insertions = (computeWordLevel "y z" "x").deletions :=
  c6_direction_swap "x" "y z" (by decide) (by decide)

/-! ## Claim C7: empty-input boundary -/

/-- C7, counterexample: empty versus b = "a\nb" is all-insertion with zero
deletions, but the insertion count is 4, not the token count 3: the engine
joins the three tokens with newlines and the newline token itself splits into
an extra empty diffed line. -/
theorem c7_counterexample :
    (computeWordLevel "" "a\nb").insertions = 4 ∧
    (computeWordLevel "" "a\nb").deletions = 0 ∧
    (tokenize "a\nb").length = 3 ∧
    (computeWordLevel "" "a\nb").insertions ≠ (tokenize "a\nb").length := by
  decide

/-- C7, amended: empty versus empty returns the all-zero delta with no hunks;
empty versus b returns an all-insertion delta with deletions = 0 and
insertions equal to the number of diffed lines of b's newline-joined token
sequence (the token count plus one extra line per newline token), provided no
such line begins with two plus signs. -/
theorem c7_empty_inputs (b : String)
    (hb : ∀ l ∈ wlLines b, hasPref l.data ['+', '+'] = false) :
    computeWordLevel "" "" =
      { versionA := "", versionB := "", hunks := [],
        insertions := 0, deletions := 0, unchanged := 0 } ∧
    (computeWordLevel "" b).deletions = 0 ∧
    (computeWordLevel "" b).insertions = (wlLines b).length := by
  refine ⟨computeWordLevel_self "", ?_, ?_⟩
  · rw [computeWordLevel_del, show wlLines "" = [] from rfl, diffOps_nil_left,
      List.countP_map]
    apply List.countP_eq_zero.mpr
    intro l _
    simp [Function.comp_def, Op.delCounted]
  · rw [computeWordLevel_ins, show wlLines "" = [] from rfl, diffOps_nil_left,
      List.countP_map]
    apply List.countP_eq_length.mpr
    intro l hl
    simp [Function.comp_def, Op.insCounted,
      hasPref_chomp_false l.data ['+', '+'] (hb l hl)]

/-- C7, witness at b = "x\ny". -/
theorem c7_empty_inputs_witness :
    computeWordLevel "" "" =
      { versionA := "", versionB := "", hunks := [],
        insertions := 0, deletions := 0, unchanged := 0 } ∧
    (computeWordLevel "" "x\ny").deletions = 0 ∧
    (computeWordLevel "" "x\ny").insertions = (wlLines "x\ny").length :=
  c7_empty_inputs "x\ny" (by decide)

/-! ## Claim C8: persistence-failure handling -/

/-- C8, counterexample: on the concrete store `exDB`, when persisting the
computed delta fails (`putOk = false`) the caller still receives the freshly
computed result with no error and the deltas table is left unchanged — not
the retryable error the claim requires. -/
theorem c8_counterexample :
    computeDiff exDB false 1 2 = .ok (exResp1, exDB, true) := by
  decide

/-- C8, amended: `ComputeDiff` ignores the result of the cache write. On a
cache miss with small texts, the response is the same whether the write
succeeds or fails; on failure no error is surfaced and the deltas table is
unchanged, so the caller receives a result computed without caching. -/
theorem c8_put_failure_ignored (db : DBState) (A B : Nat) (vA vB : Version)
    (hA : findVersion db A = some vA) (hB : findVersion db B = some vB)
    (hmiss : findDelta db A B = none)
    (hsz : ¬(utf8Len vA.textContent > maxDiffSize ∨ utf8Len vB.textContent > maxDiffSize)) :
    ∃ r db2, computeDiff db true A B = .ok (r, db2, true) ∧
      computeDiff db false A B = .ok (r, db, true) := by
  have h1 := computeDiff_miss_small db true A B vA vB hA hB hmiss hsz
  have h2 := computeDiff_miss_small db false A B vA vB hA hB hmiss hsz
  rw [if_pos rfl] at h1
  rw [if_neg (by simp)] at h2
  exact ⟨_, _, h1, h2⟩

/-- C8, witness at the concrete store `exDB`. -/
theorem c8_put_failure_ignored_witness :
    ∃ r db2, computeDiff exDB true 1 2 = .ok (r, db2, true) ∧
      computeDiff exDB false 1 2 = .ok (r, exDB, true) :=
  c8_put_failure_ignored exDB 1 2 ⟨1, "IH", "a"⟩ ⟨2, "EH", "b"⟩
    (by decide) (by decide) (by decide) (by decide)

/-! ## Claim C9: tokenizer round trip -/

/-- C9: concatenating, in order, all tokens produced by the word-granularity
tokenizer reconstructs the input text exactly; whitespace is preserved as its
own tokens, so the re-concatenation is lossless. -/
theorem c9_tokenize_round_trip (t : String) : String.join (tokenize t) = t :=
  join_tokenizeChars t

/-! ## Claim C10: tokenizer shape invariant -/

/-- C10: every token of `tokenize` is non-empty and is either exactly one
whitespace character from the set (space, newline, tab) or contains none of
those three characters; no two adjacent tokens are both non-whitespace runs
(so the runs are maximal), and joining the tokens in order reproduces the
text (so the order matches the original). -/
theorem c10_token_invariant (t : String) :
    (∀ tok ∈ tokenize t,
        tok ≠ "" ∧ (isWsTok tok = true ∨ ∀ c ∈ tok.data, isSepChar c = false)) ∧
    List.Chain' (fun s u => isWsTok s = true ∨ isWsTok u = true) (tokenize t) ∧
    String.join (tokenize t) = t := by
  refine ⟨?_, ?_, join_tokenizeChars t⟩
  · intro tok htok
    rw [tokenize] at htok
    obtain ⟨l, hl, rfl⟩ := List.mem_map.mp htok
    have h := tokenizeChars_tokens t.data [] (by simp) l hl
    refine ⟨?_, h.2⟩
    intro hcon
    exact h.1 (congrArg String.data hcon)
  · rw [tokenize, List.chain'_map]
    exact tokenizeChars_chain t.data []

end DeltaGov
